import Mathlib

/-!
Shallow embedding of the Mayagüez photo-app server core
(`src/unnamed/part_002`): the ticket-index allocator, filename formatter,
upload orchestrator, event-log writer, and the daily-stats aggregator.

JavaScript strings are modelled as `List Char`.  Instants are modelled as
milliseconds since the Unix epoch (`Nat`); the server is assumed to run
with its host clock in UTC (so `Date.prototype.getTimezoneOffset` is 0,
which is how the deployed code behaves), and all instants of interest lie
at or after 1970-01-01T04:00Z so that the fixed UTC−4 shift never
underflows.  Remote paginated listings are modelled as the full list of
file names they eventually deliver (pagination concatenates pages and the
scan only takes a maximum, so page boundaries are irrelevant).
-/

namespace PhotoApp

/-- JavaScript string, modelled as its sequence of characters. -/
abbrev JStr := List Char

/-- Character of a single decimal digit `n < 10` (`String(n)` for digits). -/
def digitChar (n : Nat) : Char := Char.ofNat (48 + n)

/-- Decimal rendering of a natural number, as done by JavaScript
`String(n)` for a non-negative integer: most-significant digit first.
Structural recursion on a fuel argument (`n + 1` is always enough fuel
because `n < 10 ^ (n + 1)`), so the kernel can evaluate it. -/
def natToDigitsCore : Nat → Nat → List Char → List Char
  | 0, _, acc => acc
  | fuel + 1, n, acc =>
    if n < 10 then digitChar n :: acc
    else natToDigitsCore fuel (n / 10) (digitChar (n % 10) :: acc)

/-- Rendering `String(n)` of a natural number `n`. -/
def natToDigits (n : Nat) : List Char := natToDigitsCore (n + 1) n []

/-- Model of `String.prototype.padStart(width, c)`. -/
def padStart (width : Nat) (c : Char) (s : JStr) : JStr :=
  List.replicate (width - s.length) c ++ s

/-- Numeric value of a list of decimal digit characters, folded left as
`parseInt` accumulates digits. -/
def digitsToNat (ds : List Char) : Nat :=
  ds.foldl (fun a c => a * 10 + (c.toNat - 48)) 0

/-- Split a string into its maximal leading run of decimal digits and the
rest (the backbone of both filename patterns `^T(\d{3,})-` and
`^(\d{2,})_`: the regex quantifiers are greedy and the characters that
must follow the digits are not digits, so matching reduces to taking the
maximal digit run). -/
def digitSpan : JStr → JStr × JStr
  | [] => ([], [])
  | c :: cs =>
    if c.isDigit then
      let p := digitSpan cs
      (c :: p.1, p.2)
    else ([], c :: cs)

/-- Model of `parseInt(s, 10)` restricted to the shapes this server feeds it
(no leading whitespace or sign): the value of the maximal leading digit
run, or `none` (JavaScript `NaN`) when there is none. -/
def parseIntDecimal (s : JStr) : Option Nat :=
  let p := digitSpan s
  if p.1 = [] then none else some (digitsToNat p.1)

/-- Match of the new filename pattern `^T(\d{3,})-` from
`getMaxIndexInFolderWithTrashFlag` (part_002 line 971), returning the
captured digit group. -/
def matchNewPattern (name : JStr) : Option JStr :=
  match name with
  | [] => none
  | c :: rest =>
    if c = 'T' then
      let p := digitSpan rest
      if 3 ≤ p.1.length ∧ p.2.head? = some '-' then some p.1 else none
    else none

/-- Match of the legacy filename pattern `^(\d{2,})_` (part_002 line
976), returning the captured digit group. -/
def matchLegacyPattern (name : JStr) : Option JStr :=
  let p := digitSpan name
  if 2 ≤ p.1.length ∧ p.2.head? = some '_' then some p.1 else none

/-- Index extracted from one file name by the allocator's scan loop
(part_002 lines 965-984): new pattern first, then legacy pattern, else 0. -/
def extractIdx (name : JStr) : Nat :=
  match matchNewPattern name with
  | some ds => digitsToNat ds
  | none =>
    match matchLegacyPattern name with
    | some ds => digitsToNat ds
    | none => 0

/-- Model of `getMaxIndexInFolderWithTrashFlag` (part_002 lines 950-991): running
maximum of the extracted indices over one listing (all pages
concatenated; items with a missing name contribute the same 0 as
non-matching names, so the listing is just the list of names). -/
def getMaxIndexInFolderWithTrashFlag (names : List JStr) : Nat :=
  names.foldl (fun maxIndex name => max maxIndex (extractIdx name)) 0

/-- One Drive folder as the allocator sees it: its active listing and its
trashed listing. -/
structure FolderState where
  active : List JStr
  trashed : List JStr
deriving DecidableEq

/-- Model of `getMaxIndexInFolderIncludingTrash` (part_002 lines 994-1000). -/
def getMaxIndexInFolderIncludingTrash (folder : FolderState) : Nat :=
  max (getMaxIndexInFolderWithTrashFlag folder.active)
    (getMaxIndexInFolderWithTrashFlag folder.trashed)

/-- The two storage folders the server uses. -/
structure DriveState where
  pending : FolderState
  approved : FolderState
deriving DecidableEq

def emptyDriveState : DriveState := ⟨⟨[], []⟩, ⟨[], []⟩⟩

/-- Model of `getNextPhotoIndex` (part_002 lines 1002-1010). -/
def getNextPhotoIndex (st : DriveState) : Nat :=
  max (getMaxIndexInFolderIncludingTrash st.pending)
    (getMaxIndexInFolderIncludingTrash st.approved) + 1

/-! ### Date / time helpers (part_002 lines 721-807)

Civil-calendar conversions follow the standard era-based algorithms used
by every `Date` implementation (`days_from_civil` / `civil_from_days`);
all instants handled here are at or after the epoch, so `Nat` arithmetic
agrees with the integer algorithms. -/

/-- Days since 1970-01-01 of the Gregorian civil date `y-m-d`
(for `y ≥ 1970`, `1 ≤ m ≤ 12`). -/
def daysFromCivil (y m d : Nat) : Nat :=
  let y' := if m ≤ 2 then y - 1 else y
  let era := y' / 400
  let yoe := y' % 400
  let mp := (m + 9) % 12
  let doy := (153 * mp + 2) / 5 + d - 1
  let doe := yoe * 365 + yoe / 4 - yoe / 100 + doy
  era * 146097 + doe - 719468

/-- Civil date `(y, m, d)` of a day count since 1970-01-01. -/
def civilFromDays (z : Nat) : Nat × Nat × Nat :=
  let z' := z + 719468
  let era := z' / 146097
  let doe := z' % 146097
  let yoe := (doe - doe / 1460 + doe / 36524 - doe / 146096) / 365
  let y0 := yoe + era * 400
  let doy := doe - (365 * yoe + yoe / 4 - yoe / 100)
  let mp := (5 * doy + 2) / 153
  let d := doy - (153 * mp + 2) / 5 + 1
  let m := if mp < 10 then mp + 3 else mp - 9
  (if m ≤ 2 then y0 + 1 else y0, m, d)

/-- Milliseconds since the epoch of a UTC civil date-time. -/
def msOfUtc (y m d hh mi ss ms : Nat) : Nat :=
  daysFromCivil y m d * 86400000 + hh * 3600000 + mi * 60000 + ss * 1000 + ms

/-- Model of `toPR` (part_002 lines 731-734): shift a UTC instant to the fixed
UTC−4 Puerto Rico clock (host timezone offset is 0). -/
def toPR (utcMs : Nat) : Nat := utcMs - 4 * 60 * 60 * 1000

/-- Fields `getFullYear` / `getMonth + 1` / `getDate` of an epoch-ms value
read on a UTC-clock host. -/
def dateYmd (ms : Nat) : Nat × Nat × Nat := civilFromDays (ms / 86400000)

/-- Field `getHours` of an epoch-ms value on a UTC-clock host. -/
def dateHours (ms : Nat) : Nat := ms % 86400000 / 3600000

/-- Field `getMinutes`. -/
def dateMinutes (ms : Nat) : Nat := ms % 3600000 / 60000

/-- Field `getSeconds`. -/
def dateSeconds (ms : Nat) : Nat := ms % 60000 / 1000

/-- Model of `getTodayPRRangeUtc` (part_002 lines 791-807): the PR-local civil day
of `nowUtcMs`, as a UTC window.  `setHours(0,0,0,0)` floors the shifted
clock value to its day, `setHours(23,59,59,999)` is that plus 86399999 ms,
and `prToUtc` adds the 4-hour offset back. -/
def getTodayPRRangeUtc (nowUtcMs : Nat) : Nat × Nat :=
  let nowPR := toPR nowUtcMs
  let startPR := nowPR - nowPR % 86400000
  let endPR := startPR + 86399999
  (startPR + 4 * 60 * 60 * 1000, endPR + 4 * 60 * 60 * 1000)

/-- Model of `formatPRDateTimeShort` (part_002 lines 759-768):
`"DD/MM/YYYY HH:MM:SS"` of a PR-clock ms value. -/
def formatPRDateTimeShort (prMs : Nat) : JStr :=
  let pad := fun n => padStart 2 '0' (natToDigits n)
  let ymd := dateYmd prMs
  pad ymd.2.2 ++ '/' :: pad ymd.2.1 ++ '/' :: natToDigits ymd.1 ++
    ' ' :: pad (dateHours prMs) ++ ':' :: pad (dateMinutes prMs) ++
    ':' :: pad (dateSeconds prMs)

/-! ### Filename / ticket formatter (part_002 lines 927-947) -/

/-- Model of `formatTicketLabel` (part_002 lines 927-930): `"T" + pad3(counter)`. -/
def formatTicketLabel (counter : Nat) : JStr :=
  'T' :: padStart 3 '0' (natToDigits counter)

/-- Model of `String(year).slice(-2)`. -/
def sliceLast2 (s : JStr) : JStr := s.drop (s.length - 2)

/-- Model of `buildServerFileName` (part_002 lines 933-947):
`"T###-DD-MM-YY-HH-MM-PR.jpeg"` from the PR clock value `prMs` (the code
reads `getPRDate()`; the embedding passes that value in). -/
def buildServerFileName (prMs : Nat) (counter : Nat) : JStr :=
  let pad := fun n => padStart 2 '0' (natToDigits n)
  let ymd := dateYmd prMs
  formatTicketLabel counter ++
    '-' :: (pad ymd.2.2 ++ '-' :: pad ymd.2.1 ++ '-' :: sliceLast2 (natToDigits ymd.1) ++
      '-' :: pad (dateHours prMs) ++ '-' :: pad (dateMinutes prMs) ++
      '-' :: "PR.jpeg".data)

/-- Model of `extractTicketNumber` (part_002 lines 708-719): substring between
position 1 and the first `'-'`, fed to `parseInt` (a `NaN` result is
merged with the `null` of the no-dash case into `none`). -/
def jsIndexOf (c : Char) : JStr → Option Nat
  | [] => none
  | a :: as => if a = c then some 0 else (jsIndexOf c as).map (· + 1)

def extractTicketNumber (filename : JStr) : Option Nat :=
  match jsIndexOf '-' filename with
  | none => none
  | some dashIndex => parseIntDecimal ((filename.drop 1).take (dashIndex - 1))

/-! ### Upload orchestrator (part_002 lines 1014-1045) -/

structure UploadResult where
  finalName : JStr
  ticketIndex : Nat
  ticketLabel : JStr
  ticketDisplay : JStr
deriving DecidableEq

/-- Store a newly created blob in the Pending folder's active listing. -/
def addPending (st : DriveState) (name : JStr) : DriveState :=
  { st with pending := { st.pending with active := name :: st.pending.active } }

/-- Model of `uploadFile` (part_002 lines 1014-1045): allocate the next index,
build the ticket metadata, then attempt the `drive.files.create` call
(whose success is the `createOk` flag); on failure the promise rejects
and storage is untouched. -/
def uploadFile (st : DriveState) (prMs : Nat) (createOk : Bool) :
    Option UploadResult × DriveState :=
  let nextIndex := getNextPhotoIndex st
  let finalName := buildServerFileName prMs nextIndex
  let ticketLabel := formatTicketLabel nextIndex
  let ticketDisplay := '#' :: padStart 3 '0' (natToDigits nextIndex)
  if createOk then
    (some ⟨finalName, nextIndex, ticketLabel, ticketDisplay⟩, addPending st finalName)
  else (none, st)

/-- Run a sequence of successful uploads (one PR-clock value per upload),
collecting the issued ticket numbers in order. -/
def runUploads : DriveState → List Nat → List Nat
  | _, [] => []
  | st, t :: ts =>
    let r := uploadFile st t true
    (r.1.elim 0 UploadResult.ticketIndex) :: runUploads r.2 ts

/-- Mark one pending file as trashed (`drive.files.update {trashed:true}`,
as the admin reject action and `clearDriveFolders` do): the file leaves
the active listing and appears in the trashed listing. -/
def trashPendingFile (st : DriveState) (name : JStr) : DriveState :=
  { st with pending := ⟨st.pending.active.erase name, name :: st.pending.trashed⟩ }

/-- Mark one approved file as trashed. -/
def trashApprovedFile (st : DriveState) (name : JStr) : DriveState :=
  { st with approved := ⟨st.approved.active.erase name, name :: st.approved.trashed⟩ }

/-- Every file name in any of the four listings. -/
def allNames (st : DriveState) : List JStr :=
  st.pending.active ++ st.pending.trashed ++ st.approved.active ++ st.approved.trashed

/-! ### Newsletter flag (part_002 lines 777-788) -/

/-- Model of `String.prototype.toLowerCase`, restricted to the characters that can
meet the vocabulary comparison (ASCII letters, plus `Í` for the Spanish
token `sí`); all other characters are fixed points of the comparison
anyway because the vocabulary is lower-case. -/
def jsToLowerChar (c : Char) : Char :=
  if 'A' ≤ c ∧ c ≤ 'Z' then Char.ofNat (c.toNat + 32)
  else if c = 'Í' then 'í'
  else c

def jsToLower (s : JStr) : JStr := s.map jsToLowerChar

/-- Model of `getNewsletterFlag` (part_002 lines 777-788).  The argument is
`String(value)` for a non-null input (`String(true) = "true"`,
`String(1) = "1"`), `none` for `null`/`undefined`. -/
def getNewsletterFlag (value : Option JStr) : JStr :=
  match value with
  | none => []
  | some s =>
    let val := jsToLower s
    if val = "true".data ∨ val = "1".data ∨ val = "sí".data ∨ val = "si".data ∨
        val = "y".data then
      "Y".data
    else if val = "false".data ∨ val = "0".data ∨ val = "no".data ∨ val = "n".data then
      "N".data
    else []

/-! ### `new Date(string)` parsing

The server only ever feeds `Date` either its own `toISOString()` output
or a client-supplied string that is expected to be in that profile.  The
model therefore implements the ECMAScript Date Time String Format in the
exact `YYYY-MM-DDTHH:MM:SS.sssZ` profile and treats every other string as
unparseable (`NaN`) — in particular `"not-a-date"`. -/

def leapYear (y : Nat) : Bool := (y % 4 = 0 ∧ y % 100 ≠ 0) ∨ y % 400 = 0

def daysInMonth (y m : Nat) : Nat :=
  if m = 2 then (if leapYear y then 29 else 28)
  else if m = 4 ∨ m = 6 ∨ m = 9 ∨ m = 11 then 30
  else 31

/-- Digit value of a digit character. -/
def dv (c : Char) : Nat := c.toNat - 48

/-- Model of `new Date(s).getTime()` for the ISO profile above: `some ms` for a
valid instant, `none` for `NaN` (invalid date). -/
def parseDateMs (s : JStr) : Option Nat :=
  match s with
  | [y1, y2, y3, y4, '-', m1, m2, '-', d1, d2, 'T',
     h1, h2, ':', n1, n2, ':', s1, s2, '.', f1, f2, f3, 'Z'] =>
    if ([y1, y2, y3, y4, m1, m2, d1, d2, h1, h2, n1, n2, s1, s2, f1, f2, f3]).all
        Char.isDigit then
      let y := ((dv y1 * 10 + dv y2) * 10 + dv y3) * 10 + dv y4
      let m := dv m1 * 10 + dv m2
      let d := dv d1 * 10 + dv d2
      let hh := dv h1 * 10 + dv h2
      let mi := dv n1 * 10 + dv n2
      let ss := dv s1 * 10 + dv s2
      let ms := (dv f1 * 10 + dv f2) * 10 + dv f3
      if 1 ≤ m ∧ m ≤ 12 ∧ 1 ≤ d ∧ d ≤ daysInMonth y m ∧ hh ≤ 23 ∧ mi ≤ 59 ∧
          ss ≤ 59 ∧ 1970 ≤ y then
        some (msOfUtc y m d hh mi ss ms)
      else none
    else none
  | _ => none

/-! ### Event log writer (part_002 lines 1110-1174) -/

/-- JavaScript `a || b` for an optional-string `a` (both `null` and the
empty string are falsy). -/
def jsOrElse (a : Option JStr) (b : JStr) : JStr :=
  match a with
  | some s => if s = [] then b else s
  | none => b

/-- Model of `logEventToSheet` (part_002 lines 1110-1174).  `sheetIdPresent`
models whether `SESSION_SHEET_ID` is configured, `nowIso` is
`new Date().toISOString()`, and the returned value is the single row
appended through the spreadsheet gateway (`none`: the function returned
without appending). -/
def logEventToSheet (sheetIdPresent : Bool) (eventType : JStr)
    (email sessionId country region lastName : JStr) (newsletter : Option JStr)
    (ticket : JStr) (timestampUtc : Option JStr) (nowIso : JStr) :
    Option (List JStr) :=
  if !sheetIdPresent then none
  else
    let utcStr := jsOrElse timestampUtc nowIso
    match parseDateMs utcStr with
    | none => none
    | some dUtc =>
      let prStr := formatPRDateTimeShort (toPR dUtc)
      let newsletterStr := getNewsletterFlag newsletter
      some [utcStr, prStr, eventType, email, sessionId, country, region, lastName,
        newsletterStr, ticket]

/-! ### Event log reader / aggregator (part_002 lines 1275-1372) -/

structure Stats where
  visits : Nat
  forms : Nat
  uploads : Nat
  eventsForPrimeHour : List JStr
  newsletterEmails : List JStr
deriving DecidableEq

def emptyStats : Stats := ⟨0, 0, 0, [], []⟩

/-- Access `row[i]` on a sheet row (missing cells are `undefined`, which every
check in the loop treats like the empty string). -/
def cell (row : List JStr) (i : Nat) : JStr := row.getD i []

/-- Model of `String.prototype.trim` (ASCII whitespace suffices for this data). -/
def isJsSpace (c : Char) : Bool :=
  c = ' ' ∨ c = '\t' ∨ c = '\n' ∨ c = '\r' ∨ c = '\x0b' ∨ c = '\x0c'

def jsTrim (s : JStr) : JStr :=
  ((s.dropWhile isJsSpace).reverse.dropWhile isJsSpace).reverse

/-- Body of the row loop of `getTodayStatsFromSheet` (part_002 lines
1313-1338); `w` is the `[startUtc, endUtc]` window.  The `Set` of
newsletter e-mails is kept in insertion order, as `Set` iteration and
`Array.from` preserve it. -/
def statsStep (w : Nat × Nat) (acc : Stats) (row : List JStr) : Stats :=
  let tsUtcStr := cell row 0
  let eventType := cell row 2
  if tsUtcStr = [] ∨ eventType = [] then acc
  else
    match parseDateMs tsUtcStr with
    | none => acc
    | some ts =>
      if ts < w.1 ∨ ts > w.2 then acc
      else
        let acc1 :=
          if eventType = "visit".data then { acc with visits := acc.visits + 1 }
          else if eventType = "form".data then { acc with forms := acc.forms + 1 }
          else if eventType = "upload".data then { acc with uploads := acc.uploads + 1 }
          else acc
        let acc2 :=
          { acc1 with eventsForPrimeHour := acc1.eventsForPrimeHour ++ [tsUtcStr] }
        let email := cell row 3
        let newsletterFlag := cell row 8
        if newsletterFlag = "Y".data ∧ email ≠ [] ∧ jsTrim email ≠ [] then
          { acc2 with
            newsletterEmails :=
              if jsTrim email ∈ acc2.newsletterEmails then acc2.newsletterEmails
              else acc2.newsletterEmails ++ [jsTrim email] }
        else acc2

/-- Model of `getTodayStatsFromSheet` (part_002 lines 1275-1342), given the rows
the spreadsheet gateway returns (header first) and the current UTC
instant. -/
def getTodayStatsFromSheet (nowUtcMs : Nat) (rows : List (List JStr)) : Stats :=
  let w := getTodayPRRangeUtc nowUtcMs
  if rows.length ≤ 1 then emptyStats
  else (rows.drop 1).foldl (statsStep w) emptyStats

/-! ### Prime hour (part_002 lines 1345-1372) -/

/-- PR-local hour of one collected event timestamp, when it parses. -/
def prHourOf (ts : JStr) : Option Nat :=
  match parseDateMs ts with
  | none => none
  | some ms => some (dateHours (toPR ms))

/-- Count `bucket[h]` after the bucketing loop of `computePrimeHour`. -/
def countHour (events : List JStr) (h : Nat) : Nat :=
  (events.filter (fun ts => prHourOf ts = some h)).length

/-- Model of `computePrimeHour` (part_002 lines 1345-1372).  The selection loop
iterates `Object.entries(bucket)`; the bucket keys are the integers
0–23, and ECMAScript enumerates integer-like own keys in ascending
numeric order, so the loop visits buckets by ascending hour.  An hour
absent from the bucket has count 0 and can never beat `bestCount`
(the comparison is strict and `bestCount` starts at 0), so folding over
all 24 hours in ascending order is exactly the source loop. -/
def computePrimeHour (events : List JStr) : Option (Nat × Nat) :=
  if events = [] then none
  else
    (List.range 24).foldl
      (fun best h =>
        let c := countHour events h
        if c > best.elim 0 Prod.snd then some (h, c) else best)
      none

/-- First-seen order of the event hours (first occurrence kept). -/
def firstSeenHours (events : List JStr) : List Nat :=
  (events.filterMap prHourOf).foldl
    (fun seen h => if h ∈ seen then seen else seen ++ [h]) []

/-- Modelled from the spec: `computePrimeHour` as §4.6 words it — "ties
keep the first-seen hour in iteration order", i.e. among the hours tied
for the largest count the one whose events were encountered first wins.
Used only to compare the spec's tie-break against the code's. -/
def computePrimeHourFirstSeen (events : List JStr) : Option (Nat × Nat) :=
  if events = [] then none
  else
    (firstSeenHours events).foldl
      (fun best h =>
        let c := countHour events h
        if c > best.elim 0 Prod.snd then some (h, c) else best)
      none

/-- The rows whose e-mail the aggregator's loop adds to the newsletter
set: in-window (non-empty timestamp and event-type cells, timestamp
parses, instant inside `[startUtc, endUtc]`), newsletter column exactly
`"Y"`, e-mail cell non-empty and non-blank. -/
def selRow (w : Nat × Nat) (row : List JStr) : Prop :=
  cell row 0 ≠ [] ∧ cell row 2 ≠ [] ∧
  (∃ ts, parseDateMs (cell row 0) = some ts ∧ w.1 ≤ ts ∧ ts ≤ w.2) ∧
  cell row 8 = "Y".data ∧ cell row 3 ≠ [] ∧ jsTrim (cell row 3) ≠ []

/-! ## Lemmas: decimal rendering and parsing -/

theorem digitChar_isDigit (k : Nat) (h : k < 10) : (digitChar k).isDigit = true := by
  interval_cases k <;> decide

theorem digitChar_toNat (k : Nat) (h : k < 10) : (digitChar k).toNat = 48 + k := by
  interval_cases k <;> decide

theorem natToDigitsCore_append (fuel n : Nat) (acc : List Char) :
    natToDigitsCore fuel n acc = natToDigitsCore fuel n [] ++ acc := by
  induction fuel generalizing n acc with
  | zero => simp [natToDigitsCore]
  | succ fuel ih =>
    by_cases h : n < 10
    · simp [natToDigitsCore, h]
    · simp only [natToDigitsCore, if_neg h]
      rw [ih (n / 10) (digitChar (n % 10) :: acc), ih (n / 10) [digitChar (n % 10)]]
      simp

theorem natToDigitsCore_isDigit (fuel n : Nat) :
    ∀ c ∈ natToDigitsCore fuel n [], c.isDigit = true := by
  induction fuel generalizing n with
  | zero => simp [natToDigitsCore]
  | succ fuel ih =>
    intro c hc
    by_cases h : n < 10
    · simp only [natToDigitsCore, if_pos h, List.mem_singleton] at hc
      exact hc ▸ digitChar_isDigit n h
    · simp only [natToDigitsCore, if_neg h] at hc
      rw [natToDigitsCore_append] at hc
      rcases List.mem_append.mp hc with h' | h'
      · exact ih (n / 10) c h'
      · simp only [List.mem_singleton] at h'
        exact h' ▸ digitChar_isDigit (n % 10) (Nat.mod_lt n (by omega))

theorem natToDigits_isDigit (n : Nat) : ∀ c ∈ natToDigits n, c.isDigit = true :=
  natToDigitsCore_isDigit (n + 1) n

theorem digitsToNat_append_singleton (xs : List Char) (c : Char) :
    digitsToNat (xs ++ [c]) = digitsToNat xs * 10 + (c.toNat - 48) := by
  simp [digitsToNat, List.foldl_append]

theorem natToDigitsCore_val (fuel n : Nat) (h : n < 10 ^ fuel) :
    digitsToNat (natToDigitsCore fuel n []) = n := by
  induction fuel generalizing n with
  | zero =>
    have hn : n = 0 := by simpa using h
    subst hn
    rfl
  | succ fuel ih =>
    by_cases h10 : n < 10
    · simp only [natToDigitsCore, if_pos h10]
      simp [digitsToNat, digitChar_toNat n h10]
    · simp only [natToDigitsCore, if_neg h10]
      rw [natToDigitsCore_append, digitsToNat_append_singleton,
        digitChar_toNat (n % 10) (Nat.mod_lt n (by omega))]
      rw [ih (n / 10) (by rw [pow_succ] at h; omega)]
      omega

theorem digitsToNat_natToDigits (n : Nat) : digitsToNat (natToDigits n) = n := by
  refine natToDigitsCore_val (n + 1) n ?_
  calc n < 2 ^ (n + 1) := by
        have := Nat.lt_two_pow n
        have : (2 : Nat) ^ n ≤ 2 ^ (n + 1) := Nat.pow_le_pow_right (by omega) (by omega)
        omega
    _ ≤ 10 ^ (n + 1) := Nat.pow_le_pow_left (by omega) _

theorem natToDigits_length_pos (n : Nat) : 1 ≤ (natToDigits n).length := by
  have core_len : ∀ fuel m (acc : List Char),
      acc.length ≤ (natToDigitsCore fuel m acc).length := by
    intro fuel
    induction fuel with
    | zero => intro m acc; simp [natToDigitsCore]
    | succ fuel ih =>
      intro m acc
      by_cases h : m < 10
      · simp [natToDigitsCore, h]
      · simp only [natToDigitsCore, if_neg h]
        have := ih (m / 10) (digitChar (m % 10) :: acc)
        simp at this
        omega
  show 1 ≤ (natToDigitsCore (n + 1) n []).length
  by_cases h : n < 10
  · simp [natToDigitsCore, h]
  · simp only [natToDigitsCore, if_neg h]
    have := core_len n (n / 10) [digitChar (n % 10)]
    simp at this
    omega

theorem digitsToNat_replicate_zero (k : Nat) (ds : List Char) :
    digitsToNat (List.replicate k '0' ++ ds) = digitsToNat ds := by
  induction k with
  | zero => simp
  | succ k ih =>
    simp only [List.replicate_succ, List.cons_append]
    simpa [digitsToNat] using ih

theorem digitsToNat_padStart (w n : Nat) :
    digitsToNat (padStart w '0' (natToDigits n)) = n := by
  rw [padStart, digitsToNat_replicate_zero, digitsToNat_natToDigits]

theorem padStart_isDigit (w n : Nat) :
    ∀ c ∈ padStart w '0' (natToDigits n), c.isDigit = true := by
  intro c hc
  rcases List.mem_append.mp hc with h | h
  · rw [List.eq_of_mem_replicate h]; decide
  · exact natToDigits_isDigit n c h

theorem padStart_length (w : Nat) (c : Char) (s : List Char) :
    (padStart w c s).length = max w s.length := by
  simp [padStart]
  omega

/-! ## Lemmas: the two filename patterns -/

theorem digitSpan_append (ds rest : JStr) (hd : ∀ c ∈ ds, c.isDigit = true)
    (hr : ∀ c, rest.head? = some c → c.isDigit = false) :
    digitSpan (ds ++ rest) = (ds, rest) := by
  induction ds with
  | nil =>
    cases rest with
    | nil => rfl
    | cons c cs => simp [digitSpan, hr c rfl]
  | cons d ds ih =>
    have hdd : d.isDigit = true := hd d (List.mem_cons_self d ds)
    simp only [List.cons_append, digitSpan, if_pos hdd, List.append_eq]
    rw [ih (fun c hc => hd c (List.mem_cons_of_mem d hc))]

theorem digitSpan_sound (l : JStr) :
    l = (digitSpan l).1 ++ (digitSpan l).2 ∧
      (∀ c ∈ (digitSpan l).1, c.isDigit = true) ∧
      (∀ c, (digitSpan l).2.head? = some c → c.isDigit = false) := by
  induction l with
  | nil => simp [digitSpan]
  | cons c cs ih =>
    by_cases h : c.isDigit
    · simp only [digitSpan, if_pos h]
      refine ⟨by rw [List.cons_append, ← ih.1], ?_, ih.2.2⟩
      intro c' hc'
      rcases List.mem_cons.mp hc' with h' | h'
      · exact h' ▸ h
      · exact ih.2.1 c' h'
    · simp only [digitSpan, if_neg h]
      exact ⟨rfl, by simp, fun c' hc' => by
        simp only [List.head?_cons, Option.some.injEq] at hc'
        simpa [← hc'] using h⟩

theorem matchNewPattern_decomp (ds rest : JStr) (hd : ∀ c ∈ ds, c.isDigit = true)
    (hlen : 3 ≤ ds.length) :
    matchNewPattern ('T' :: (ds ++ '-' :: rest)) = some ds := by
  have hr : ∀ c, ('-' :: rest : JStr).head? = some c → c.isDigit = false := by
    intro c hc
    simp only [List.head?_cons, Option.some.injEq] at hc
    subst hc; decide
  simp [matchNewPattern, digitSpan_append ds ('-' :: rest) hd hr, hlen]

theorem matchLegacyPattern_decomp (ds rest : JStr) (hd : ∀ c ∈ ds, c.isDigit = true)
    (hlen : 2 ≤ ds.length) :
    matchLegacyPattern (ds ++ '_' :: rest) = some ds := by
  have hr : ∀ c, ('_' :: rest : JStr).head? = some c → c.isDigit = false := by
    intro c hc
    simp only [List.head?_cons, Option.some.injEq] at hc
    subst hc; decide
  simp [matchLegacyPattern, digitSpan_append ds ('_' :: rest) hd hr, hlen]

theorem extractIdx_new (ds rest : JStr) (hd : ∀ c ∈ ds, c.isDigit = true)
    (hlen : 3 ≤ ds.length) :
    extractIdx ('T' :: (ds ++ '-' :: rest)) = digitsToNat ds := by
  rw [extractIdx, matchNewPattern_decomp ds rest hd hlen]

theorem extractIdx_ticket (n : Nat) (rest : JStr) :
    extractIdx (formatTicketLabel n ++ '-' :: rest) = n := by
  have h1 : formatTicketLabel n ++ '-' :: rest =
      'T' :: (padStart 3 '0' (natToDigits n) ++ '-' :: rest) := by
    simp [formatTicketLabel]
  rw [h1, extractIdx_new _ _ (padStart_isDigit 3 n)
    (by rw [padStart_length]; omega), digitsToNat_padStart]

theorem extractIdx_buildServerFileName (prMs n : Nat) :
    extractIdx (buildServerFileName prMs n) = n := by
  rw [buildServerFileName]
  exact extractIdx_ticket n _

/-! ## Lemmas: the allocator scan -/

theorem scan_foldl (l : List JStr) (a : Nat) :
    l.foldl (fun maxIndex name => max maxIndex (extractIdx name)) a
      = max a (getMaxIndexInFolderWithTrashFlag l) := by
  induction l generalizing a with
  | nil => simp [getMaxIndexInFolderWithTrashFlag]
  | cons n l ih =>
    rw [getMaxIndexInFolderWithTrashFlag, List.foldl_cons, List.foldl_cons, ih, ih]
    omega

theorem scan_cons (name : JStr) (l : List JStr) :
    getMaxIndexInFolderWithTrashFlag (name :: l)
      = max (extractIdx name) (getMaxIndexInFolderWithTrashFlag l) := by
  rw [getMaxIndexInFolderWithTrashFlag, List.foldl_cons, scan_foldl]
  omega

theorem le_scan (l : List JStr) (name : JStr) (h : name ∈ l) :
    extractIdx name ≤ getMaxIndexInFolderWithTrashFlag l := by
  induction l with
  | nil => cases h
  | cons b bs ih =>
    rw [scan_cons]
    rcases List.mem_cons.mp h with h' | h'
    · subst h'; omega
    · have := ih h'; omega

theorem scan_erase (l : List JStr) (name : JStr) (h : name ∈ l) :
    getMaxIndexInFolderWithTrashFlag l
      = max (extractIdx name) (getMaxIndexInFolderWithTrashFlag (l.erase name)) := by
  induction l with
  | nil => cases h
  | cons b bs ih =>
    by_cases hb : b = name
    · subst hb
      rw [List.erase_cons_head, scan_cons]
    · have hbs : name ∈ bs := by
        rcases List.mem_cons.mp h with h' | h'
        · exact absurd h'.symm hb
        · exact h'
      rw [List.erase_cons_tail (by simpa using hb), scan_cons, scan_cons, ih hbs]
      omega

theorem extractIdx_lt_next (st : DriveState) (name : JStr) (h : name ∈ allNames st) :
    extractIdx name < getNextPhotoIndex st := by
  rw [getNextPhotoIndex, getMaxIndexInFolderIncludingTrash,
    getMaxIndexInFolderIncludingTrash]
  rcases List.mem_append.mp h with h' | h4
  · rcases List.mem_append.mp h' with h'' | h3
    · rcases List.mem_append.mp h'' with h1 | h2
      · have := le_scan _ _ h1; omega
      · have := le_scan _ _ h2; omega
    · have := le_scan _ _ h3; omega
  · have := le_scan _ _ h4; omega

theorem next_after_upload (st : DriveState) (prMs : Nat) :
    getNextPhotoIndex (addPending st (buildServerFileName prMs (getNextPhotoIndex st)))
      = getNextPhotoIndex st + 1 := by
  have hname := extractIdx_buildServerFileName prMs (getNextPhotoIndex st)
  simp only [getNextPhotoIndex, getMaxIndexInFolderIncludingTrash, addPending] at hname ⊢
  rw [scan_cons, hname]
  omega

theorem runUploads_range' (ts : List Nat) :
    ∀ st, runUploads st ts = List.range' (getNextPhotoIndex st) ts.length := by
  induction ts with
  | nil => intro st; rfl
  | cons t ts ih =>
    intro st
    show (uploadFile st t true).1.elim 0 UploadResult.ticketIndex ::
        runUploads (uploadFile st t true).2 ts = _
    simp only [uploadFile, ite_true, Option.elim_some]
    rw [ih, next_after_upload]
    simp [List.range'_succ]

/-- Claim C1: starting from empty Pending and Approved folders, a sequence
of successful uploads (one PR-clock reading per upload) issues exactly
the ticket numbers `1, 2, …, k` in order: `List.range' 1 k` is the list
`[1, 2, …, k]`, so the numbers are strictly increasing from 1 with no
repeats and the i-th upload receives ticket number i. -/
theorem uploads_tickets_sequential (ts : List Nat) :
    runUploads emptyDriveState ts = List.range' 1 ts.length := by
  rw [runUploads_range' ts emptyDriveState]
  rfl

/-- Claim C2: the allocator's result strictly exceeds every ticket number
embedded (by either filename pattern) in any file of either folder,
active or trashed; and trashing a file — in Pending or in Approved —
leaves `getNextPhotoIndex` unchanged, because the scan includes trashed
listings, so a once-issued number is never reissued after trashing. -/
theorem trashPending_preserves_next (st : DriveState) (name : JStr)
    (hp : name ∈ st.pending.active) :
    getNextPhotoIndex (trashPendingFile st name) = getNextPhotoIndex st := by
  simp only [getNextPhotoIndex, getMaxIndexInFolderIncludingTrash, trashPendingFile]
  rw [scan_cons, scan_erase st.pending.active name hp]
  omega

theorem trashApproved_preserves_next (st : DriveState) (name : JStr)
    (ha : name ∈ st.approved.active) :
    getNextPhotoIndex (trashApprovedFile st name) = getNextPhotoIndex st := by
  simp only [getNextPhotoIndex, getMaxIndexInFolderIncludingTrash, trashApprovedFile]
  rw [scan_cons, scan_erase st.approved.active name ha]
  omega

theorem nextIndex_exceeds_embedded (st : DriveState) (name : JStr) :
    (name ∈ allNames st → extractIdx name < getNextPhotoIndex st) ∧
    (name ∈ st.pending.active →
      getNextPhotoIndex (trashPendingFile st name) = getNextPhotoIndex st) ∧
    (name ∈ st.approved.active →
      getNextPhotoIndex (trashApprovedFile st name) = getNextPhotoIndex st) :=
  ⟨extractIdx_lt_next st name, trashPending_preserves_next st name,
    trashApproved_preserves_next st name⟩

/-- Witness for C2 at a concrete state holding `T007-x` in both active
listings: the next index exceeds the embedded 7, and trashing the file in
either folder leaves the next index unchanged. -/
theorem nextIndex_exceeds_embedded_witness :
    (extractIdx "T007-x".data <
      getNextPhotoIndex ⟨⟨["T007-x".data], []⟩, ⟨["T007-x".data], []⟩⟩) ∧
    (getNextPhotoIndex
        (trashPendingFile ⟨⟨["T007-x".data], []⟩, ⟨["T007-x".data], []⟩⟩ "T007-x".data)
      = getNextPhotoIndex ⟨⟨["T007-x".data], []⟩, ⟨["T007-x".data], []⟩⟩) ∧
    (getNextPhotoIndex
        (trashApprovedFile ⟨⟨["T007-x".data], []⟩, ⟨["T007-x".data], []⟩⟩ "T007-x".data)
      = getNextPhotoIndex ⟨⟨["T007-x".data], []⟩, ⟨["T007-x".data], []⟩⟩) :=
  ⟨(nextIndex_exceeds_embedded _ _).1 (by decide),
   (nextIndex_exceeds_embedded _ _).2.1 (by decide),
   (nextIndex_exceeds_embedded _ _).2.2 (by decide)⟩

/-- Claim C3: if the blob-store create call fails after ticket allocation,
`uploadFile` rejects with the storage state unchanged, so the next
allocation over that state returns the very same ticket number; whereas
a successful upload advances the next index by one, and trashing the
just-created artifact does not roll it back — that number stays burned. -/
theorem failed_upload_preserves_ticket (st : DriveState) (prMs : Nat) :
    uploadFile st prMs false = (none, st) ∧
    getNextPhotoIndex (uploadFile st prMs false).2 = getNextPhotoIndex st ∧
    (∀ u st', uploadFile st prMs true = (some u, st') →
      getNextPhotoIndex st' = getNextPhotoIndex st + 1 ∧
      getNextPhotoIndex (trashPendingFile st' u.finalName)
        = getNextPhotoIndex st + 1) := by
  refine ⟨rfl, rfl, fun u st' h => ?_⟩
  simp only [uploadFile, ite_true, Prod.mk.injEq, Option.some.injEq] at h
  obtain ⟨hu, hst⟩ := h
  subst hst
  subst hu
  have h1 := next_after_upload st prMs
  refine ⟨h1, ?_⟩
  have hmem : buildServerFileName prMs (getNextPhotoIndex st) ∈ (addPending st
      (buildServerFileName prMs (getNextPhotoIndex st))).pending.active :=
    List.mem_cons_self _ _
  rw [show (⟨buildServerFileName prMs (getNextPhotoIndex st), getNextPhotoIndex st,
      formatTicketLabel (getNextPhotoIndex st),
      '#' :: padStart 3 '0' (natToDigits (getNextPhotoIndex st))⟩ :
        UploadResult).finalName
      = buildServerFileName prMs (getNextPhotoIndex st) from rfl,
    trashPending_preserves_next _ _ hmem, h1]

/-! ## C4: exactness of the scan's per-name extraction -/

theorem matchNewPattern_sound (name ds : JStr) (h : matchNewPattern name = some ds) :
    ∃ rest, name = 'T' :: (ds ++ '-' :: rest) ∧ (∀ c ∈ ds, c.isDigit = true) ∧
      3 ≤ ds.length := by
  cases name with
  | nil => simp [matchNewPattern] at h
  | cons c cs =>
    by_cases hc : c = 'T'
    · subst hc
      simp only [matchNewPattern, if_pos rfl] at h
      by_cases hcond : 3 ≤ (digitSpan cs).1.length ∧ (digitSpan cs).2.head? = some '-'
      · rw [if_pos hcond] at h
        obtain ⟨hlen, hhead⟩ := hcond
        obtain ⟨heq, hdig, -⟩ := digitSpan_sound cs
        cases h
        cases hp2 : (digitSpan cs).2 with
        | nil => rw [hp2] at hhead; simp at hhead
        | cons x xs =>
          rw [hp2] at hhead heq
          simp only [List.head?_cons, Option.some.injEq] at hhead
          subst hhead
          exact ⟨xs, congrArg (List.cons 'T') heq, hdig, hlen⟩
      · rw [if_neg hcond] at h
        cases h
    · simp only [matchNewPattern, if_neg hc] at h
      exact Option.noConfusion h

theorem matchLegacyPattern_sound (name ds : JStr)
    (h : matchLegacyPattern name = some ds) :
    ∃ rest, name = ds ++ '_' :: rest ∧ (∀ c ∈ ds, c.isDigit = true) ∧
      2 ≤ ds.length := by
  by_cases hcond : 2 ≤ (digitSpan name).1.length ∧ (digitSpan name).2.head? = some '_'
  · rw [matchLegacyPattern, if_pos hcond] at h
    obtain ⟨hlen, hhead⟩ := hcond
    obtain ⟨heq, hdig, -⟩ := digitSpan_sound name
    cases h
    cases hp2 : (digitSpan name).2 with
    | nil => rw [hp2] at hhead; simp at hhead
    | cons x xs =>
      rw [hp2] at hhead heq
      simp only [List.head?_cons, Option.some.injEq] at hhead
      subst hhead
      exact ⟨xs, heq, hdig, hlen⟩
  · rw [matchLegacyPattern, if_neg hcond] at h
    cases h

/-- Claim C4: per-name behaviour of the allocator's scan: a name that
decomposes per the new pattern `^T(\d{3,})-` yields exactly its embedded
integer; a name with no such decomposition that decomposes per the legacy
pattern `^(\d{2,})_` yields exactly that integer; a name matching neither
pattern contributes 0 to the running maximum. -/
theorem scan_extraction_exact (name : JStr) :
    (∀ ds rest, name = 'T' :: (ds ++ '-' :: rest) → (∀ c ∈ ds, c.isDigit = true) →
      3 ≤ ds.length → extractIdx name = digitsToNat ds) ∧
    ((¬ ∃ ds rest, name = 'T' :: (ds ++ '-' :: rest) ∧ (∀ c ∈ ds, c.isDigit = true) ∧
        3 ≤ ds.length) →
      ∀ ds rest, name = ds ++ '_' :: rest → (∀ c ∈ ds, c.isDigit = true) →
        2 ≤ ds.length → extractIdx name = digitsToNat ds) ∧
    ((¬ ∃ ds rest, name = 'T' :: (ds ++ '-' :: rest) ∧ (∀ c ∈ ds, c.isDigit = true) ∧
        3 ≤ ds.length) →
      (¬ ∃ ds rest, name = ds ++ '_' :: rest ∧ (∀ c ∈ ds, c.isDigit = true) ∧
        2 ≤ ds.length) →
      extractIdx name = 0) := by
  have hnew_none : (¬ ∃ ds rest, name = 'T' :: (ds ++ '-' :: rest) ∧
      (∀ c ∈ ds, c.isDigit = true) ∧ 3 ≤ ds.length) → matchNewPattern name = none := by
    intro hno
    cases hmn : matchNewPattern name with
    | none => rfl
    | some ds =>
      obtain ⟨rest, heq, hd, hl⟩ := matchNewPattern_sound name ds hmn
      exact absurd ⟨ds, rest, heq, hd, hl⟩ hno
  have hleg_none : (¬ ∃ ds rest, name = ds ++ '_' :: rest ∧
      (∀ c ∈ ds, c.isDigit = true) ∧ 2 ≤ ds.length) →
      matchLegacyPattern name = none := by
    intro hno
    cases hml : matchLegacyPattern name with
    | none => rfl
    | some ds =>
      obtain ⟨rest, heq, hd, hl⟩ := matchLegacyPattern_sound name ds hml
      exact absurd ⟨ds, rest, heq, hd, hl⟩ hno
  refine ⟨fun ds rest heq hd hl => ?_, fun hno ds rest heq hd hl => ?_,
    fun hno1 hno2 => ?_⟩
  · subst heq
    exact extractIdx_new ds rest hd hl
  · subst heq
    rw [extractIdx, hnew_none hno, matchLegacyPattern_decomp ds rest hd hl]
  · rw [extractIdx, hnew_none hno1, hleg_none hno2]

/-- Witness for C4: a new-pattern name extracts 15, a legacy name (which
matches no new-pattern decomposition) extracts 7, and a name matching
neither pattern contributes 0. -/
theorem scan_extraction_exact_witness :
    extractIdx "T015-03-12-25-22-05-PR.jpeg".data = digitsToNat "015".data ∧
    extractIdx "07_03_12_25-10_11_12.jpeg".data = digitsToNat "07".data ∧
    extractIdx "IMG_photo.jpeg".data = 0 := by
  refine ⟨?_, ?_, ?_⟩
  · exact (scan_extraction_exact _).1 "015".data "03-12-25-22-05-PR.jpeg".data
      (by decide) (by decide) (by decide)
  · refine (scan_extraction_exact _).2.1 ?_ "07".data "03_12_25-10_11_12.jpeg".data
      (by decide) (by decide) (by decide)
    rintro ⟨ds, rest, heq, hd, hl⟩
    have h := matchNewPattern_decomp ds rest hd hl
    rw [← heq] at h
    have hnone : matchNewPattern "07_03_12_25-10_11_12.jpeg".data = none := by decide
    rw [hnone] at h
    exact Option.noConfusion h
  · refine (scan_extraction_exact _).2.2 ?_ ?_
    · rintro ⟨ds, rest, heq, hd, hl⟩
      have h := matchNewPattern_decomp ds rest hd hl
      rw [← heq] at h
      have hnone : matchNewPattern "IMG_photo.jpeg".data = none := by decide
      rw [hnone] at h
      exact Option.noConfusion h
    · rintro ⟨ds, rest, heq, hd, hl⟩
      have h := matchLegacyPattern_decomp ds rest hd hl
      rw [← heq] at h
      have hnone : matchLegacyPattern "IMG_photo.jpeg".data = none := by decide
      rw [hnone] at h
      exact Option.noConfusion h

/-! ## C10: formatter / parser round-trip -/

theorem jsIndexOf_append (c : Char) (ds rest : JStr) (h : ∀ x ∈ ds, x ≠ c) :
    jsIndexOf c (ds ++ c :: rest) = some ds.length := by
  induction ds with
  | nil => simp [jsIndexOf]
  | cons d ds ih =>
    have hd : d ≠ c := h d (List.mem_cons_self d ds)
    rw [List.cons_append, jsIndexOf, if_neg hd,
      ih (fun x hx => h x (List.mem_cons_of_mem d hx))]
    rfl

theorem digitSpan_all_digits (l : JStr) (h : ∀ c ∈ l, c.isDigit = true) :
    digitSpan l = (l, []) := by
  have := digitSpan_append l [] h (by simp)
  simpa using this

theorem extractTicketNumber_ticket (n : Nat) (rest : JStr) :
    extractTicketNumber (formatTicketLabel n ++ '-' :: rest) = some n := by
  have hdig := padStart_isDigit 3 n
  have hne : ∀ x ∈ padStart 3 '0' (natToDigits n), x ≠ '-' := by
    intro x hx heq
    have hx' := hdig x hx
    rw [heq] at hx'
    exact absurd hx' (by decide)
  have h1 : formatTicketLabel n ++ '-' :: rest =
      'T' :: (padStart 3 '0' (natToDigits n) ++ '-' :: rest) := by
    simp [formatTicketLabel]
  have hidx : jsIndexOf '-' ('T' :: (padStart 3 '0' (natToDigits n) ++ '-' :: rest))
      = some ((padStart 3 '0' (natToDigits n)).length + 1) := by
    rw [jsIndexOf, if_neg (by decide : ¬('T' : Char) = '-'),
      jsIndexOf_append '-' _ rest hne]
    rfl
  have hnil : ¬padStart 3 '0' (natToDigits n) = [] := by
    intro hcon
    have hl := padStart_length 3 '0' (natToDigits n)
    rw [hcon] at hl
    simp at hl
    omega
  rw [h1]
  simp only [extractTicketNumber, hidx, Nat.add_sub_cancel, List.drop_succ_cons,
    List.drop_zero, List.take_left, parseIntDecimal,
    digitSpan_all_digits _ hdig, if_neg hnil]
  rw [digitsToNat_padStart]

/-- Claim C10: for every positive ticket number and every PR-clock reading,
the produced filename round-trips: `extractTicketNumber` parses back
exactly the issued number, and the allocator's new-pattern scan extracts
the same number, so a stored artifact's embedded ticket number equals the
number it was issued. -/
theorem filename_roundtrip (prMs n : Nat) (h : 0 < n) :
    extractTicketNumber (buildServerFileName prMs n) = some n ∧
    extractIdx (buildServerFileName prMs n) = n := by
  refine ⟨?_, extractIdx_buildServerFileName prMs n⟩
  rw [buildServerFileName]
  exact extractTicketNumber_ticket n _

/-- Witness for C10 at ticket 7 and a concrete clock reading. -/
theorem filename_roundtrip_witness :
    extractTicketNumber (buildServerFileName 1764727531000 7) = some 7 ∧
    extractIdx (buildServerFileName 1764727531000 7) = 7 :=
  filename_roundtrip 1764727531000 7 (by decide)

/-- Witness for C3 at the empty state: the failing branch returns the
state untouched and the succeeding branch followed by a trash leaves the
next index at 2. -/
theorem failed_upload_preserves_ticket_witness :
    uploadFile emptyDriveState 0 false = (none, emptyDriveState) ∧
    getNextPhotoIndex (uploadFile emptyDriveState 0 false).2
      = getNextPhotoIndex emptyDriveState ∧
    (getNextPhotoIndex (uploadFile emptyDriveState 0 true).2
        = getNextPhotoIndex emptyDriveState + 1 ∧
      getNextPhotoIndex
          (trashPendingFile (uploadFile emptyDriveState 0 true).2
            (buildServerFileName 0 1))
        = getNextPhotoIndex emptyDriveState + 1) :=
  ⟨(failed_upload_preserves_ticket emptyDriveState 0).1,
   (failed_upload_preserves_ticket emptyDriveState 0).2.1,
   (failed_upload_preserves_ticket emptyDriveState 0).2.2
     ⟨buildServerFileName 0 1, 1, formatTicketLabel 1,
       '#' :: padStart 3 '0' (natToDigits 1)⟩
     (addPending emptyDriveState (buildServerFileName 0 1)) (by decide)⟩

/-! ## C6: the PR-local day window in UTC -/

/-- Claim C6: `getTodayPRRangeUtc` maps any instant whose PR-local civil
date is 2025-12-03 to the window [local midnight, local 23:59:59.999]
re-expressed in UTC with the fixed UTC−4 offset:
`startUtc = 2025-12-03T04:00:00.000Z`, `endUtc = 2025-12-04T03:59:59.999Z`. -/
theorem dayWindowUtc_fixed_offset (nowUtcMs : Nat)
    (h1 : msOfUtc 2025 12 3 0 0 0 0 ≤ toPR nowUtcMs)
    (h2 : toPR nowUtcMs < msOfUtc 2025 12 4 0 0 0 0) :
    getTodayPRRangeUtc nowUtcMs
      = (msOfUtc 2025 12 3 4 0 0 0, msOfUtc 2025 12 4 3 59 59 999) := by
  have hA : msOfUtc 2025 12 3 0 0 0 0 = 1764720000000 := by decide
  have hB : msOfUtc 2025 12 4 0 0 0 0 = 1764806400000 := by decide
  have hS : msOfUtc 2025 12 3 4 0 0 0 = 1764734400000 := by decide
  have hE : msOfUtc 2025 12 4 3 59 59 999 = 1764820799999 := by decide
  rw [hA] at h1
  rw [hB] at h2
  simp only [getTodayPRRangeUtc, hS, hE, Prod.mk.injEq]
  omega

/-- Witness for C6 at UTC 2025-12-03T16:00Z (PR-local noon of 2025-12-03). -/
theorem dayWindowUtc_fixed_offset_witness :
    getTodayPRRangeUtc (msOfUtc 2025 12 3 16 0 0 0)
      = (msOfUtc 2025 12 3 4 0 0 0, msOfUtc 2025 12 4 3 59 59 999) :=
  dayWindowUtc_fixed_offset (msOfUtc 2025 12 3 16 0 0 0) (by decide) (by decide)

/-! ## C7: degraded cases of the event-log writer -/

/-- Claim C7: `logEventToSheet` appends nothing exactly when the log-store
id is absent or the effective timestamp string fails to parse as an
instant; in particular `logEvent('form', {timestampUtc: 'not-a-date'})`
appends no row and returns normally, while the same call with a valid
timestamp appends exactly one row. -/
theorem logEvent_degraded_cases (sheetIdPresent : Bool)
    (eventType email sessionId country region lastName : JStr)
    (newsletter : Option JStr) (ticket : JStr) (timestampUtc : Option JStr)
    (nowIso : JStr) :
    (logEventToSheet sheetIdPresent eventType email sessionId country region lastName
        newsletter ticket timestampUtc nowIso = none
      ↔ sheetIdPresent = false ∨ parseDateMs (jsOrElse timestampUtc nowIso) = none) ∧
    logEventToSheet true "form".data "a@b.c".data [] [] [] [] none []
      (some "not-a-date".data) "2025-12-03T12:00:00.000Z".data = none ∧
    (logEventToSheet true "form".data "a@b.c".data [] [] [] [] none []
        (some "2025-12-03T12:00:00.000Z".data)
        "2025-12-03T12:00:00.000Z".data).isSome = true := by
  refine ⟨?_, by decide, by decide⟩
  cases sheetIdPresent with
  | false => simp [logEventToSheet]
  | true =>
    cases hp : parseDateMs (jsOrElse timestampUtc nowIso) with
    | none => simp [logEventToSheet, hp]
    | some v => simp [logEventToSheet, hp]

/-! ## C8: newsletter-flag vocabulary -/

/-- Counterexample for C8: the input `"True"` is none of the nine vocabulary
tokens (`true,1,sí,si,y,false,0,no,n`), so per the claim it should map to
`""`; the code lowercases first and maps it to `"Y"`. -/
theorem newsletterFlag_counterexample :
    getNewsletterFlag (some "True".data) = "Y".data ∧
    "True".data ∉ ["true".data, "1".data, "sí".data, "si".data, "y".data,
      "false".data, "0".data, "no".data, "n".data] ∧
    "Y".data ≠ ([] : JStr) := by
  decide

/-- Claim C8 as amended: `getNewsletterFlag` maps every input to exactly one
of {"Y","N",""}, and token matching is case-insensitive (the input is
lowercased first): inputs whose lowercasing is a truthy token
(`true,1,sí,si,y`) yield "Y", those whose lowercasing is a falsy token
(`false,0,no,n`) yield "N", everything else — including null — yields "". -/
theorem newsletterFlag_vocabulary (s : JStr) :
    getNewsletterFlag none = [] ∧
    (getNewsletterFlag (some s) = "Y".data ↔
      jsToLower s ∈ ["true".data, "1".data, "sí".data, "si".data, "y".data]) ∧
    (getNewsletterFlag (some s) = "N".data ↔
      jsToLower s ∈ ["false".data, "0".data, "no".data, "n".data]) ∧
    (getNewsletterFlag (some s) = "Y".data ∨ getNewsletterFlag (some s) = "N".data ∨
      getNewsletterFlag (some s) = []) := by
  refine ⟨rfl, ?_, ?_, ?_⟩
  · rw [getNewsletterFlag]
    split_ifs with h1 h2
    · simp only [List.mem_cons, List.not_mem_nil, or_false]
      exact iff_of_true trivial h1
    · simp only [List.mem_cons, List.not_mem_nil, or_false]
      exact iff_of_false (by decide) h1
    · simp only [List.mem_cons, List.not_mem_nil, or_false]
      exact iff_of_false (by decide) h1
  · rw [getNewsletterFlag]
    split_ifs with h1 h2
    · simp only [List.mem_cons, List.not_mem_nil, or_false]
      refine iff_of_false (by decide) ?_
      intro hin
      rcases h1 with _ | _ | _ | _ | _ <;> rcases hin with h' | h' | h' | h' <;>
        simp_all
    · simp only [List.mem_cons, List.not_mem_nil, or_false]
      exact iff_of_true trivial h2
    · simp only [List.mem_cons, List.not_mem_nil, or_false]
      exact iff_of_false (by decide) h2
  · rw [getNewsletterFlag]
    split_ifs
    · exact Or.inl rfl
    · exact Or.inr (Or.inl rfl)
    · exact Or.inr (Or.inr rfl)

/-! ## C5: prime-hour selection -/

theorem primeFold_spec (count : Nat → Nat) :
    ∀ (hs prior : List Nat) (best : Option (Nat × Nat)),
      (∀ a ∈ prior, ∀ b ∈ hs, a ≤ b) →
      List.Pairwise (· ≤ ·) hs →
      (best = none → ∀ x ∈ prior, count x = 0) →
      (∀ hh c, best = some (hh, c) → hh ∈ prior ∧ 0 < c ∧ c = count hh ∧
        ∀ x ∈ prior, count x < c ∨ (count x = c ∧ hh ≤ x)) →
      (hs.foldl (fun b x => if count x > b.elim 0 Prod.snd then some (x, count x) else b)
          best = none → ∀ x ∈ prior ++ hs, count x = 0) ∧
      (∀ hh c,
        hs.foldl (fun b x => if count x > b.elim 0 Prod.snd then some (x, count x) else b)
          best = some (hh, c) →
        hh ∈ prior ++ hs ∧ 0 < c ∧ c = count hh ∧
        ∀ x ∈ prior ++ hs, count x < c ∨ (count x = c ∧ hh ≤ x)) := by
  intro hs
  induction hs with
  | nil =>
    intro prior best hord hpw hnone hsome
    simpa using ⟨hnone, hsome⟩
  | cons b hs ih =>
    intro prior best hord hpw hnone hsome
    have hord' : ∀ a ∈ prior ++ [b], ∀ x ∈ hs, a ≤ x := by
      intro a ha x hx
      rcases List.mem_append.mp ha with h' | h'
      · exact hord a h' x (List.mem_cons_of_mem b hx)
      · simp only [List.mem_singleton] at h'
        subst h'
        exact (List.pairwise_cons.mp hpw).1 x hx
    have hpw' := (List.pairwise_cons.mp hpw).2
    by_cases hgt : count b > best.elim 0 Prod.snd
    · have hnone' : (some (b, count b) : Option (Nat × Nat)) = none →
          ∀ x ∈ prior ++ [b], count x = 0 := fun hcon => Option.noConfusion hcon
      have hsome' : ∀ hh c, (some (b, count b) : Option (Nat × Nat)) = some (hh, c) →
          hh ∈ prior ++ [b] ∧ 0 < c ∧ c = count hh ∧
          ∀ x ∈ prior ++ [b], count x < c ∨ (count x = c ∧ hh ≤ x) := by
        intro hh c hcon
        obtain ⟨rfl, rfl⟩ : b = hh ∧ count b = c := by
          cases hcon
          exact ⟨rfl, rfl⟩
        refine ⟨List.mem_append_right _ (List.mem_singleton.mpr rfl), by omega, rfl, ?_⟩
        intro x hx
        rcases List.mem_append.mp hx with h' | h'
        · cases hb : best with
          | none =>
            have := hnone hb x h'
            omega
          | some p =>
            obtain ⟨-, -, -, hall⟩ := hsome p.1 p.2 (by rw [hb])
            have hx' := hall x h'
            have he : best.elim 0 Prod.snd = p.2 := by simp [hb]
            omega
        · simp only [List.mem_singleton] at h'
          subst h'
          exact Or.inr ⟨rfl, le_refl _⟩
      have hres := ih (prior ++ [b]) (some (b, count b)) hord' hpw' hnone' hsome'
      have hfold : (b :: hs).foldl
          (fun bb x => if count x > bb.elim 0 Prod.snd then some (x, count x) else bb)
          best = hs.foldl
          (fun bb x => if count x > bb.elim 0 Prod.snd then some (x, count x) else bb)
          (some (b, count b)) := by
        rw [List.foldl_cons, if_pos hgt]
      rw [hfold]
      constructor
      · intro hn x hx
        refine hres.1 hn x ?_
        simpa [List.append_assoc] using hx
      · intro hh c hsm
        obtain ⟨hmem, hpos, hceq, hall⟩ := hres.2 hh c hsm
        refine ⟨by simpa [List.append_assoc] using hmem, hpos, hceq, ?_⟩
        intro x hx
        exact hall x (by simpa [List.append_assoc] using hx)
    · have hnone' : best = none → ∀ x ∈ prior ++ [b], count x = 0 := by
        intro hb x hx
        rcases List.mem_append.mp hx with h' | h'
        · exact hnone hb x h'
        · simp only [List.mem_singleton] at h'
          subst h'
          rw [hb] at hgt
          simpa using hgt
      have hsome' : ∀ hh c, best = some (hh, c) →
          hh ∈ prior ++ [b] ∧ 0 < c ∧ c = count hh ∧
          ∀ x ∈ prior ++ [b], count x < c ∨ (count x = c ∧ hh ≤ x) := by
        intro hh c hb
        obtain ⟨hmem, hpos, hceq, hall⟩ := hsome hh c hb
        refine ⟨List.mem_append_left _ hmem, hpos, hceq, ?_⟩
        intro x hx
        rcases List.mem_append.mp hx with h' | h'
        · exact hall x h'
        · simp only [List.mem_singleton] at h'
          subst h'
          rw [hb] at hgt
          simp only [Option.elim_some] at hgt
          have hhb : hh ≤ x := hord hh hmem x (List.mem_cons_self x hs)
          omega
      have hres := ih (prior ++ [b]) best hord' hpw' hnone' hsome'
      have hfold : (b :: hs).foldl
          (fun bb x => if count x > bb.elim 0 Prod.snd then some (x, count x) else bb)
          best = hs.foldl
          (fun bb x => if count x > bb.elim 0 Prod.snd then some (x, count x) else bb)
          best := by
        rw [List.foldl_cons, if_neg hgt]
      rw [hfold]
      constructor
      · intro hn x hx
        refine hres.1 hn x ?_
        simpa [List.append_assoc] using hx
      · intro hh c hsm
        obtain ⟨hmem, hpos, hceq, hall⟩ := hres.2 hh c hsm
        refine ⟨by simpa [List.append_assoc] using hmem, hpos, hceq, ?_⟩
        intro x hx
        exact hall x (by simpa [List.append_assoc] using hx)

theorem dateHours_lt (ms : Nat) : dateHours ms < 24 := by
  rw [dateHours]
  omega

/-- Claim C5 as amended: for every event list, whenever `computePrimeHour`
returns a bucket it is the hour bucket with the strictly largest count,
and when several hours tie for the largest count the numerically
smallest tied hour is returned (the `Object.entries` loop enumerates the
integer bucket keys in ascending order, not in first-seen order); and
whenever some event has a parseable timestamp a bucket is returned. -/
theorem primeHour_max_smallest_tiebreak (events : List JStr) :
    (∀ h c, computePrimeHour events = some (h, c) →
      h < 24 ∧ 0 < c ∧ c = countHour events h ∧
      ∀ h', h' < 24 → countHour events h' < c ∨ (countHour events h' = c ∧ h ≤ h')) ∧
    (∀ ts ∈ events, ∀ hr, prHourOf ts = some hr →
      ∃ p, computePrimeHour events = some p) := by
  have hpw : List.Pairwise (· ≤ ·) (List.range 24) :=
    (List.pairwise_lt_range 24).imp le_of_lt
  have base := primeFold_spec (countHour events) (List.range 24) [] none
    (by simp) hpw (by simp) (fun hh c hcon => Option.noConfusion hcon)
  constructor
  · intro h c hres
    by_cases hev : events = []
    · rw [computePrimeHour, if_pos hev] at hres
      exact Option.noConfusion hres
    · simp only [computePrimeHour, if_neg hev] at hres
      obtain ⟨hmem, hpos, hceq, hall⟩ := base.2 h c hres
      refine ⟨?_, hpos, hceq, ?_⟩
      · simpa [List.mem_range] using hmem
      · intro h' hh'
        exact hall h' (by simpa [List.mem_range] using hh')
  · intro ts hts hr hhr
    have hev : events ≠ [] := List.ne_nil_of_mem hts
    have hrlt : hr < 24 := by
      rw [prHourOf] at hhr
      cases hp : parseDateMs ts with
      | none => rw [hp] at hhr; exact Option.noConfusion hhr
      | some ms =>
        rw [hp] at hhr
        simp only [Option.some.injEq] at hhr
        rw [← hhr]
        exact dateHours_lt _
    have hpos : 0 < countHour events hr := by
      have hmem : ts ∈ events.filter (fun t => prHourOf t = some hr) := by
        rw [List.mem_filter]
        exact ⟨hts, by simp [hhr]⟩
      simp only [countHour]
      exact List.length_pos.mpr (List.ne_nil_of_mem hmem)
    rcases hcp : computePrimeHour events with _ | p
    · exfalso
      simp only [computePrimeHour, if_neg hev] at hcp
      have := base.1 hcp hr (by simpa [List.mem_range] using hrlt)
      omega
    · exact ⟨p, rfl⟩

/-- Witness for C5's amended theorem at a one-event list whose event
falls in PR-local hour 9. -/
theorem primeHour_max_smallest_tiebreak_witness :
    (9 < 24 ∧ 0 < 1 ∧ 1 = countHour ["2025-12-03T13:10:00.000Z".data] 9 ∧
      ∀ h', h' < 24 → countHour ["2025-12-03T13:10:00.000Z".data] h' < 1 ∨
        (countHour ["2025-12-03T13:10:00.000Z".data] h' = 1 ∧ 9 ≤ h')) ∧
    (∃ p, computePrimeHour ["2025-12-03T13:10:00.000Z".data] = some p) :=
  ⟨(primeHour_max_smallest_tiebreak _).1 9 1 (by decide),
   (primeHour_max_smallest_tiebreak _).2 "2025-12-03T13:10:00.000Z".data
     (List.mem_cons_self _ _) 9 (by decide)⟩

/-- Counterexample for C5: four events at PR-local hours 14, 14, 9, 9 (in
that order).  Hours 14 and 9 tie with count 2; the first-seen hour is 14,
but the code returns hour 9 — the smallest tied hour, because
`Object.entries` enumerates the integer bucket keys in ascending order.
`computePrimeHourFirstSeen` is the spec-worded first-seen tie-break. -/
theorem primeHour_tiebreak_counterexample :
    computePrimeHour ["2025-12-03T18:05:00.000Z".data, "2025-12-03T18:06:00.000Z".data,
        "2025-12-03T13:10:00.000Z".data, "2025-12-03T13:11:00.000Z".data]
      = some (9, 2) ∧
    computePrimeHourFirstSeen ["2025-12-03T18:05:00.000Z".data,
        "2025-12-03T18:06:00.000Z".data, "2025-12-03T13:10:00.000Z".data,
        "2025-12-03T13:11:00.000Z".data]
      = some (14, 2) ∧
    (9 : Nat) ≠ 14 := by
  refine ⟨by decide, by decide, by decide⟩

/-! ## C9: the newsletter e-mail set -/

theorem mem_insertIfAbsent (x e : JStr) (l : List JStr) :
    e ∈ (if x ∈ l then l else l ++ [x]) ↔ e ∈ l ∨ e = x := by
  split_ifs with hin
  · constructor
    · exact Or.inl
    · rintro (he | rfl)
      exacts [he, hin]
  · simp [List.mem_append]

theorem nodup_insertIfAbsent (x : JStr) (l : List JStr) (h : l.Nodup) :
    (if x ∈ l then l else l ++ [x]).Nodup := by
  split_ifs with hin
  · exact h
  · rw [List.nodup_append]
    refine ⟨h, List.nodup_singleton x, ?_⟩
    intro a ha hax
    simp only [List.mem_singleton] at hax
    subst hax
    exact hin ha

theorem statsStep_nl_pos (w : Nat × Nat) (acc : Stats) (row : List JStr)
    (h : selRow w row) :
    (statsStep w acc row).newsletterEmails =
      if jsTrim (cell row 3) ∈ acc.newsletterEmails then acc.newsletterEmails
      else acc.newsletterEmails ++ [jsTrim (cell row 3)] := by
  obtain ⟨h0, h2, ⟨ts, hts, hlo, hhi⟩, h8, h3, htr⟩ := h
  have hw : ¬(ts < w.1 ∨ ts > w.2) := by omega
  have h02 : ¬(cell row 0 = [] ∨ cell row 2 = []) := not_or.mpr ⟨h0, h2⟩
  have hcond : cell row 8 = "Y".data ∧ cell row 3 ≠ [] ∧ jsTrim (cell row 3) ≠ [] :=
    ⟨h8, h3, htr⟩
  simp only [statsStep, hts, if_neg h02, if_neg hw, if_pos hcond]
  simp [apply_ite Stats.newsletterEmails]

theorem statsStep_nl_neg (w : Nat × Nat) (acc : Stats) (row : List JStr)
    (h : ¬ selRow w row) :
    (statsStep w acc row).newsletterEmails = acc.newsletterEmails := by
  by_cases h02 : cell row 0 = [] ∨ cell row 2 = []
  · simp only [statsStep, if_pos h02]
  · have h02' := not_or.mp h02
    cases hts : parseDateMs (cell row 0) with
    | none => simp only [statsStep, if_neg h02, hts]
    | some ts =>
      by_cases hw : ts < w.1 ∨ ts > w.2
      · simp only [statsStep, if_neg h02, hts, if_pos hw]
      · have hcond : ¬(cell row 8 = "Y".data ∧ cell row 3 ≠ [] ∧
            jsTrim (cell row 3) ≠ []) := by
          intro hc
          exact h ⟨h02'.1, h02'.2, ⟨ts, hts, by omega, by omega⟩, hc.1, hc.2.1, hc.2.2⟩
        simp only [statsStep, if_neg h02, hts, if_neg hw, if_neg hcond]
        simp [apply_ite Stats.newsletterEmails]

theorem foldl_statsStep_newsletter (w : Nat × Nat) :
    ∀ (rs : List (List JStr)) (acc : Stats),
      (∀ e, e ∈ (rs.foldl (statsStep w) acc).newsletterEmails ↔
        e ∈ acc.newsletterEmails ∨
          ∃ row ∈ rs, selRow w row ∧ jsTrim (cell row 3) = e) ∧
      (acc.newsletterEmails.Nodup →
        (rs.foldl (statsStep w) acc).newsletterEmails.Nodup) := by
  intro rs
  induction rs with
  | nil => intro acc; simp
  | cons r rs ih =>
    intro acc
    rw [List.foldl_cons]
    by_cases hr : selRow w r
    · have hstep := statsStep_nl_pos w acc r hr
      constructor
      · intro e
        rw [(ih (statsStep w acc r)).1 e, hstep, mem_insertIfAbsent]
        simp only [List.mem_cons]
        constructor
        · rintro ((he | rfl) | ⟨row, hrow, hsel, htrim⟩)
          · exact Or.inl he
          · exact Or.inr ⟨r, Or.inl rfl, hr, rfl⟩
          · exact Or.inr ⟨row, Or.inr hrow, hsel, htrim⟩
        · rintro (he | ⟨row, hrow', hsel, htrim⟩)
          · exact Or.inl (Or.inl he)
          · rcases hrow' with rfl | hrow
            · exact Or.inl (Or.inr htrim.symm)
            · exact Or.inr ⟨row, hrow, hsel, htrim⟩
      · intro hnd
        refine (ih (statsStep w acc r)).2 ?_
        rw [hstep]
        exact nodup_insertIfAbsent _ _ hnd
    · have hstep := statsStep_nl_neg w acc r hr
      constructor
      · intro e
        rw [(ih (statsStep w acc r)).1 e, hstep]
        simp only [List.mem_cons]
        constructor
        · rintro (he | ⟨row, hrow, hsel, htrim⟩)
          · exact Or.inl he
          · exact Or.inr ⟨row, Or.inr hrow, hsel, htrim⟩
        · rintro (he | ⟨row, hrow', hsel, htrim⟩)
          · exact Or.inl he
          · rcases hrow' with rfl | hrow
            · exact absurd hsel hr
            · exact Or.inr ⟨row, hrow, hsel, htrim⟩
      · intro hnd
        exact (ih (statsStep w acc r)).2 (hstep ▸ hnd)

/-- Claim C9: the aggregator's newsletter e-mail collection contains
exactly the trimmed e-mails of the in-window data rows whose newsletter
column equals `"Y"` and whose e-mail cell is non-blank, with set
semantics on the exact trimmed string: membership is by case-sensitive
string equality (so exact duplicates appear once — the list has no
duplicates — while differently-cased variants are distinct elements). -/
theorem newsletter_email_set_spec (nowUtcMs : Nat) (rows : List (List JStr))
    (e : JStr) :
    (e ∈ (getTodayStatsFromSheet nowUtcMs rows).newsletterEmails ↔
      ∃ row ∈ rows.drop 1, selRow (getTodayPRRangeUtc nowUtcMs) row ∧
        jsTrim (cell row 3) = e) ∧
    (getTodayStatsFromSheet nowUtcMs rows).newsletterEmails.Nodup := by
  simp only [getTodayStatsFromSheet]
  by_cases hlen : rows.length ≤ 1
  · rw [if_pos hlen]
    have hdrop : rows.drop 1 = [] := by
      cases rows with
      | nil => rfl
      | cons a l =>
        simp at hlen
        simp [hlen]
    simp [emptyStats, hdrop]
  · rw [if_neg hlen]
    have h1 := foldl_statsStep_newsletter (getTodayPRRangeUtc nowUtcMs)
      (rows.drop 1) emptyStats
    refine ⟨?_, h1.2 (by simp [emptyStats])⟩
    rw [h1.1 e]
    simp [emptyStats]

end PhotoApp
